import Mathlib

/-!
Verification of the `teii.finance` client (files `teii/finance/finance.py` and
`teii/finance/timeseries.py`) against its natural-language specification.

The Python code is shallowly embedded: each data frame becomes a list of typed
rows indexed by a calendar date, pandas label slicing on the (sorted) date
index becomes `locSlice`, positional slicing becomes `drop`/`take`, and every
method that can raise becomes a function into `Except FinanceError _`.
Dynamically typed arguments (`from_date`/`to_date`/`from_year`/`to_year`,
`api_key`) are embedded as the sum type `PyVal`, so that the `type(...)`
and truthiness checks of the source can be stated faithfully.
Numeric column values are embedded as `ℚ` (floats in the source) and `Int`
(Python ints); machine floating point plays no role in the properties below,
which are about which entries are selected, summed or compared.
-/

namespace Teii

/-- A calendar date.  The source keys its tables by `datetime64[ns]` values
and compares them chronologically; we embed a date as year/month/day and
order dates by `Date.key`, which for calendar-valid dates coincides with
chronological (lexicographic) order. -/
structure Date where
  year : Int
  month : Nat
  day : Nat
deriving DecidableEq, Repr

/-- Order-reflecting encoding of a date; for dates with `month ≤ 99` and
`day ≤ 99` the `key` order is exactly lexicographic (chronological) order,
matching both `datetime.date` comparison and the `datetime64` index order. -/
def Date.key (d : Date) : Int := d.year * 10000 + (d.month : Int) * 100 + (d.day : Int)

/-- `calendar.monthrange(y, m)[1]` — the number of days of month `m` in year `y`. -/
def daysInMonth (y : Int) (m : Nat) : Nat :=
  if m = 2 then (if y % 4 = 0 ∧ (y % 100 ≠ 0 ∨ y % 400 = 0) then 29 else 28)
  else if m = 4 ∨ m = 6 ∨ m = 9 ∨ m = 11 then 30 else 31

/-- A calendar-valid date (what `datetime.date` and the `datetime64` index
can actually hold). -/
def Date.Valid (d : Date) : Prop :=
  1 ≤ d.month ∧ d.month ≤ 12 ∧ 1 ≤ d.day ∧ d.day ≤ daysInMonth d.year d.month

instance (d : Date) : Decidable d.Valid := by unfold Date.Valid; infer_instance

/-- One row of a `TimeSeriesFinanceClient` table: the 8 canonical columns of
`_data_field2name_type` keyed by the date index. -/
structure Row where
  date : Date
  «open» : ℚ
  high : ℚ
  low : ℚ
  close : ℚ
  aclose : ℚ
  volume : Int
  dividend : ℚ
  splitc : Int
deriving DecidableEq, Repr

/-- A per-ticker table (`self._data_frame` holds one per ticker), rows in
date-index order. -/
abbrev Table := List Row

/-- A dynamically typed Python value, as far as the client inspects one:
`None`, an `int`, a `str`, or a `datetime.date`. -/
inductive PyVal where
  | none : PyVal
  | int : Int → PyVal
  | str : String → PyVal
  | date : Date → PyVal
deriving DecidableEq, Repr

/-- Python truthiness of the embedded values. -/
def PyVal.truthy : PyVal → Bool
  | .none => false
  | .int n => n ≠ 0
  | .str s => s ≠ ""
  | .date _ => true

/-- `isinstance(v, str)`. -/
def PyVal.isStr : PyVal → Bool
  | .str _ => true
  | _ => false

/-- `type(v) is datetime.date`. -/
def PyVal.isDate : PyVal → Bool
  | .date _ => true
  | _ => false

/-- `type(v) is int`. -/
def PyVal.isInt : PyVal → Bool
  | .int _ => true
  | _ => false

/-- Every way the embedded client code can raise: the `teii.finance`
exception taxonomy plus the plain Python exceptions (`KeyError`,
`IndexError`) that some code paths actually raise. -/
inductive FinanceError where
  | invalidAPIKey : FinanceError
  | apiError : String → Nat → FinanceError      -- failing URL and status
  | invalidData : String → FinanceError
  | paramError : FinanceError
  | ioError : FinanceError
  | keyError : FinanceError                     -- pandas/Python KeyError
  | indexError : FinanceError                   -- Python IndexError
deriving DecidableEq, Repr

/-- The per-iteration `response.append(...)`-then-raise loop of the source
builds the result list left to right and aborts on the first error. -/
def mapME {α β : Type} (f : α → Except FinanceError β) : List α → Except FinanceError (List β)
  | [] => .ok []
  | a :: l => do
      let b ← f a
      let r ← mapME f l
      pure (b :: r)

/-! ### `FinanceClient.__init__` — API key resolution (`finance.py` lines 110–115) -/

/-- `if not self._api_key: self._api_key = os.getenv("TEII_FINANCE_API_KEY")`. -/
def resolveApiKey (apiKey : PyVal) (env : Option String) : PyVal :=
  if apiKey.truthy then apiKey
  else match env with
       | some s => .str s
       | Option.none => .none

/-- The API key configuration step of the constructor: resolve the key, then
`if not self._api_key or not isinstance(self._api_key, str): raise
FinanceClientInvalidAPIKey(...)`. -/
def checkApiKey (apiKey : PyVal) (env : Option String) : Except FinanceError PyVal :=
  let key := resolveApiKey apiKey env
  if ¬ key.truthy ∨ ¬ key.isStr then .error .invalidAPIKey else .ok key

/-! ### `FinanceClient._query_api` (`finance.py` lines 164–182) -/

/-- What one `requests.get` call can do: return a response carrying a URL and
a status code, or raise a transport exception. -/
inductive FetchOutcome where
  | resp : String → Nat → FetchOutcome
  | exn : FetchOutcome
deriving DecidableEq, Repr

/-- The `_query_api` loop.  Per iteration the source appends the response and
asserts `status_code == 200`; the `except` clause then formats the message of
`FinanceClientAPIError` from `response[i]`.  When `requests.get` itself
raised, `response[i]` was never appended, so that very formatting raises
`IndexError` instead. -/
def query_api_loop : List FetchOutcome → List (String × Nat) → Except FinanceError (List (String × Nat))
  | [], acc => .ok acc
  | .resp u s :: rest, acc =>
      if s = 200 then query_api_loop rest (acc ++ [(u, s)])
      else .error (.apiError u s)
  | .exn :: _, _ => .error .indexError

/-- `_query_api`, given the outcome of `requests.get` for each ticker. -/
def query_api (outcomes : List FetchOutcome) : Except FinanceError (List (String × Nat)) :=
  query_api_loop outcomes []

/-! ### `TimeSeriesFinanceClient._build_data_frame` — column handling
(`timeseries.py` lines 141–177) -/

/-- `_data_field2name_type`: provider label ↦ (canonical name, dtype). -/
def data_field2name_type : List (String × String × String) :=
  [("1. open",              ("open",     "float")),
   ("2. high",              ("high",     "float")),
   ("3. low",               ("low",      "float")),
   ("4. close",             ("close",    "float")),
   ("5. adjusted close",    ("aclose",   "float")),
   ("6. volume",            ("volume",   "int")),
   ("7. dividend amount",   ("dividend", "float")),
   ("8. split coefficient", ("splitc",   "int"))]

/-- The renaming applied to a single column label by
`data.rename(columns={...})`: a label that is a key of the mapping becomes
the mapped canonical name; any other label is kept unchanged. -/
def rename1 (c : String) : String :=
  match data_field2name_type.find? (fun p => p.1 = c) with
  | some p => p.2.1
  | Option.none => c

/-- `data.rename(columns={...})`: every column is renamed through the
mapping.  Under pandas defaults this step never raises. -/
def rename_columns (cols : List String) : List String := cols.map rename1

/-- `data.astype(dtype={...})`: raises `KeyError` (wrapped by the source into
`FinanceClientInvalidData("Cannot convert to expected datatypes...")`) exactly
when some key of the dtype mapping is not a column of the frame; extra
columns not named in the mapping are left alone. -/
def astype_columns (cols : List String) : Except FinanceError (List String) :=
  if data_field2name_type.all (fun p => cols.contains p.2.1)
  then .ok cols
  else .error (.invalidData "Cannot convert to expected datatypes, error while formatting")

/-- The column-name portion of `_build_data_frame`: rename, then set dtypes. -/
def normalize_columns (cols : List String) : Except FinanceError (List String) :=
  astype_columns (rename_columns cols)

/-- The raw labels of `_data_field2name_type`, i.e. the 8 expected fields of
a provider record. -/
def rawLabels : List String := data_field2name_type.map (fun p => p.1)

/-- The sorting step of `_build_data_frame`
(`data.sort_index(ascending=True)`), as insertion sort on the date key. -/
def insertByDate (r : Row) : List Row → List Row
  | [] => [r]
  | x :: xs =>
      if r.date.key ≤ x.date.key then r :: x :: xs else x :: insertByDate r xs

/-- `data.sort_index(ascending=True)`: sort the rows by their date index. -/
def sort_index : List Row → List Row
  | [] => []
  | x :: xs => insertByDate x (sort_index xs)

/-! ### Column projections -/

/-- `data['close']`. -/
def closeCol (data : Table) : List (Date × ℚ) := data.map (fun r => (r.date, r.close))

/-- `data['volume']`. -/
def volumeCol (data : Table) : List (Date × Int) := data.map (fun r => (r.date, r.volume))

/-- `data['dividend']`. -/
def dividendCol (data : Table) : List (Date × ℚ) := data.map (fun r => (r.date, r.dividend))

/-- `data['high']` and `data['low']`, zipped (the source always walks them
with `zip(high, low)`). -/
def hlCol (data : Table) : List (Date × (ℚ × ℚ)) := data.map (fun r => (r.date, (r.high, r.low)))

/-! ### pandas primitives on the sorted date index -/

/-- `series.loc[d1:d2]` on a monotonically increasing date index: drop the
strictly-smaller prefix, keep the `≤ d2` prefix of the rest (pandas
`slice_locs` with both endpoints inclusive). -/
def locSlice {α : Type} (l : List (Date × α)) (d1 d2 : Date) : List (Date × α) :=
  (l.dropWhile (fun p => decide (p.1.key < d1.key))).takeWhile
    (fun p => decide (p.1.key ≤ d2.key))

/-- `series.index.get_loc(d, method='bfill')` on a monotonically increasing
index: the position of the first entry with date `≥ d`; raises `KeyError`
when every entry is smaller. -/
def bfillIdx {α : Type} (l : List (Date × α)) (d : Date) : Except FinanceError Nat :=
  match l.findIdx? (fun p => decide (d.key ≤ p.1.key)) with
  | some i => .ok i
  | Option.none => .error .keyError

/-- `series.index.get_loc(d, method='ffill')` on a monotonically increasing
index: the position of the last entry with date `≤ d`; raises `KeyError`
when every entry is larger. -/
def ffillIdx {α : Type} (l : List (Date × α)) (d : Date) : Except FinanceError Nat :=
  let k := (l.takeWhile (fun p => decide (p.1.key ≤ d.key))).length
  if k = 0 then .error .keyError else .ok (k - 1)

/-- Python `range(a, b+1)` over integers. -/
def intRange (a b : Int) : List Int :=
  (List.range (b + 1 - a).toNat).map (fun k => a + k)

/-! ### `TimeSeriesFinanceClient.daily_price` / `daily_volume`
(`timeseries.py` lines 218–339) -/

/-- Body of the `daily_price` loop for one ticker's table: project the
`close` column; when both bounds are supplied, check the argument types with
`type(...) is dt.date`, then the order, then slice with `.loc`. -/
def daily_price_one (data : Table) (from_date to_date : PyVal) :
    Except FinanceError (List (Date × ℚ)) :=
  let series := closeCol data
  if from_date ≠ .none ∧ to_date ≠ .none then
    match from_date, to_date with
    | .date d1, .date d2 =>
        if d2.key < d1.key then .error .paramError
        else .ok (locSlice series d1 d2)
    | _, _ => .error .paramError
  else .ok series

/-- `daily_price`, one result per ticker. -/
def daily_price (tables : List Table) (from_date to_date : PyVal) :
    Except FinanceError (List (List (Date × ℚ))) :=
  mapME (fun data => daily_price_one data from_date to_date) tables

/-- Body of the `daily_volume` loop for one ticker's table (identical to
`daily_price_one` but on the `volume` column). -/
def daily_volume_one (data : Table) (from_date to_date : PyVal) :
    Except FinanceError (List (Date × Int)) :=
  let series := volumeCol data
  if from_date ≠ .none ∧ to_date ≠ .none then
    match from_date, to_date with
    | .date d1, .date d2 =>
        if d2.key < d1.key then .error .paramError
        else .ok (locSlice series d1 d2)
    | _, _ => .error .paramError
  else .ok series

/-- `daily_volume`, one result per ticker. -/
def daily_volume (tables : List Table) (from_date to_date : PyVal) :
    Except FinanceError (List (List (Date × Int))) :=
  mapME (fun data => daily_volume_one data from_date to_date) tables

/-! ### `TimeSeriesFinanceClient.yearly_dividends`
(`timeseries.py` lines 341–453) -/

/-- One iteration of the per-year loop of `yearly_dividends`:
`from_date = index.get_loc(to_datetime(f"1/1/{i}"), method='bfill')`,
`to_date = index.get_loc(to_datetime(f"31/12/{i}"), method='ffill')`,
`series = series.iloc[from_date:to_date]` (a *positional* slice, whose upper
bound is exclusive), drop zero entries, and sum. -/
def yd_year (divcol : List (Date × ℚ)) (i : Int) : Except FinanceError ℚ :=
  match bfillIdx divcol ⟨i, 1, 1⟩ with
  | .error e => .error e
  | .ok a =>
      match ffillIdx divcol ⟨i, 12, 31⟩ with
      | .error e => .error e
      | .ok b =>
          let sliced := (divcol.drop a).take (b - a)
          .ok (((sliced.filter (fun p => p.2 ≠ 0)).map (fun p => p.2)).sum)

/-- The per-year loop, accumulating one `(Jan 1 of i, total)` row per year. -/
def yd_loop (divcol : List (Date × ℚ)) : List Int → Except FinanceError (List (Date × ℚ))
  | [] => .ok []
  | i :: rest => do
      let t ← yd_year divcol i
      let r ← yd_loop divcol rest
      pure ((⟨i, 1, 1⟩, t) :: r)

/-- Body of the `yearly_dividends` loop for one ticker's table.  With both
year bounds supplied: type check, order check, then the year loop over
`range(from_year, to_year+1)`.  With a bound omitted: the year loop over the
years of the first and last rows (`head(1)`/`tail(1)`, which raise
`IndexError` on an empty table). -/
def yearly_dividends_one (data : Table) (from_year to_year : PyVal) :
    Except FinanceError (List (Date × ℚ)) :=
  let divcol := dividendCol data
  if from_year ≠ .none ∧ to_year ≠ .none then
    match from_year, to_year with
    | .int fy, .int ty =>
        if ty < fy then .error .paramError
        else yd_loop divcol (intRange fy ty)
    | _, _ => .error .paramError
  else
    match data with
    | [] => .error .indexError
    | r0 :: tl =>
        yd_loop divcol (intRange r0.date.year ((tl.getLastD r0).date.year))

/-- `yearly_dividends`, one result per ticker. -/
def yearly_dividends (tables : List Table) (from_year to_year : PyVal) :
    Except FinanceError (List (List (Date × ℚ))) :=
  mapME (fun data => yearly_dividends_one data from_year to_year) tables

/-- What the spec says the yearly total is: the sum of all non-zero
`dividend` values whose date falls within year `i` (stated from the spec's
words, to be compared with `yearly_dividends`). -/
def specYearlyDividendSum (data : Table) (i : Int) : ℚ :=
  (((data.filter (fun r => decide (r.date.year = i) && decide (r.dividend ≠ 0))).map
    (fun r => r.dividend)).sum)

/-! ### `TimeSeriesFinanceClient.yearly_dividends_per_quarter`
(`timeseries.py` lines 455–518) -/

/-- Body of the `yearly_dividends_per_quarter` loop for one ticker's table:
same year-range validation as `yearly_dividends`, then a `.loc` slice from
Jan 1 of `from_year` to Dec 31 of `to_year`, then drop zero entries. -/
def yearly_dividends_per_quarter_one (data : Table) (from_year to_year : PyVal) :
    Except FinanceError (List (Date × ℚ)) :=
  let series := dividendCol data
  if from_year ≠ .none ∧ to_year ≠ .none then
    match from_year, to_year with
    | .int fy, .int ty =>
        if ty < fy then .error .paramError
        else .ok ((locSlice series ⟨fy, 1, 1⟩ ⟨ty, 12, 31⟩).filter (fun p => p.2 ≠ 0))
    | _, _ => .error .paramError
  else .ok (series.filter (fun p => p.2 ≠ 0))

/-- `yearly_dividends_per_quarter`, one result per ticker. -/
def yearly_dividends_per_quarter (tables : List Table) (from_year to_year : PyVal) :
    Except FinanceError (List (List (Date × ℚ))) :=
  mapME (fun data => yearly_dividends_per_quarter_one data from_year to_year) tables

/-! ### `TimeSeriesFinanceClient.highest_daily_variation`
(`timeseries.py` lines 520–590) -/

/-- The scan of `highest_daily_variation`: walk `zip(high, low)` with a
running position `i`, best position `index` and running maximum `maxdiff`
(initially `0`), updating on a strictly larger `high - low`.  Returns the
final `(index, maxdiff)`. -/
def hdvScan : List (ℚ × ℚ) → Nat → Nat → ℚ → Nat × ℚ
  | [], _, index, maxdiff => (index, maxdiff)
  | (h, l) :: rest, i, index, maxdiff =>
      if maxdiff < h - l then hdvScan rest (i + 1) i (h - l)
      else hdvScan rest (i + 1) index maxdiff

/-- Body of the `highest_daily_variation` loop for one ticker's table: scan,
then read `high.index.values[index]`, `high.values[index]`,
`low.values[index]` (an `IndexError` on an empty table) and return
`[date, high, low, maxdiff]`. -/
def highest_daily_variation_one (data : Table) :
    Except FinanceError (Date × ℚ × ℚ × ℚ) :=
  let pairs := data.map (fun r => (r.high, r.low))
  let st := hdvScan pairs 0 0 0
  match data.get? st.1 with
  | some r => .ok (r.date, r.high, r.low, st.2)
  | Option.none => .error .indexError

/-- `highest_daily_variation`, one result per ticker. -/
def highest_daily_variation (tables : List Table) :
    Except FinanceError (List (Date × ℚ × ℚ × ℚ)) :=
  mapME highest_daily_variation_one tables

/-- The per-row variations `high - low`, in chronological order. -/
def diffs (data : Table) : List ℚ := data.map (fun r => r.high - r.low)

/-! ### `TimeSeriesFinanceClient.highest_monthly_mean_variation`
(`timeseries.py` lines 592–705) -/

/-- The `n`-th (year, month) pair visited by the nested loops
`for i in range(fy, ty+1): for j in range(1, 13)`:
year `fy + n / 12`, month `n % 12 + 1`. -/
def gridMonth (fy : Int) (n : Nat) : Int × Nat :=
  (fy + ((n / 12 : Nat) : Int), n % 12 + 1)

/-- The nested loops `for i in range(fy, ty+1): for j in range(1, 13)`,
flattened into a single enumeration of (year, month) pairs. -/
def monthGrid (fy ty : Int) : List (Int × Nat) :=
  (List.range (12 * (ty + 1 - fy).toNat)).map (gridMonth fy)

/-- The month slice of one iteration:
`high.loc[date(i, j, 1) : date(i, j, monthrange(i, j)[1])]` (and the same
rows of `low`), taken on the zipped high/low column. -/
def monthSliceHL (data : Table) (i : Int) (j : Nat) : List (Date × (ℚ × ℚ)) :=
  locSlice (hlCol data) ⟨i, j, 1⟩ ⟨i, j, daysInMonth i j⟩

/-- One month's iteration of `highest_monthly_mean_variation` on the state
`(index, maxmean, aux)`: sum the day variations of the month slice
(`diffparcial`), count its days (`dias`, by which `aux` advances), and when
the month has days and its mean strictly exceeds `maxmean`, record the mean
and `index = aux - 1` (the global position of the month's last row). -/
def hmmvStep (data : Table) (st : Nat × ℚ × Nat) (ij : Int × Nat) : Nat × ℚ × Nat :=
  let seg := monthSliceHL data ij.1 ij.2
  let diffparcial := (seg.map (fun p => p.2.1 - p.2.2)).sum
  let dias := seg.length
  let aux := st.2.2 + dias
  if dias ≠ 0 then
    let mean := diffparcial / (dias : ℚ)
    if st.2.1 < mean then (aux - 1, mean, aux) else (st.1, st.2.1, aux)
  else (st.1, st.2.1, aux)

/-- Body of the `highest_monthly_mean_variation` loop for one ticker's
table: the years span `head(1)`/`tail(1)` (an `IndexError` on an empty
table), the month loop starting from `index = 0`, `maxmean = 0.0`,
`aux = 0`, and finally the year and month of `high.index.values[index]`,
returned as that month's first day together with `maxmean`. -/
def highest_monthly_mean_variation_one (data : Table) :
    Except FinanceError (Date × ℚ) :=
  match data with
  | [] => .error .indexError
  | r0 :: tl =>
      let fy := r0.date.year
      let ty := (tl.getLastD r0).date.year
      let st := (monthGrid fy ty).foldl (hmmvStep data) (0, 0, 0)
      match data.get? st.1 with
      | some r => .ok (⟨r.date.year, r.date.month, 1⟩, st.2.1)
      | Option.none => .error .indexError

/-- `highest_monthly_mean_variation`, one result per ticker. -/
def highest_monthly_mean_variation (tables : List Table) :
    Except FinanceError (List (Date × ℚ)) :=
  mapME highest_monthly_mean_variation_one tables

/-- The mean day variation of the month `ij`, when the month has at least
one observed day (stated from the spec's words, to be compared with the
scan of `highest_monthly_mean_variation`). -/
def monthMeanOpt (data : Table) (ij : Int × Nat) : Option ℚ :=
  let seg := monthSliceHL data ij.1 ij.2
  if seg.length = 0 then Option.none
  else some ((seg.map (fun p => p.2.1 - p.2.2)).sum / (seg.length : ℚ))

/-- The means of the months with at least one observed day, in calendar
order over the grid spanned by `[fy, ty]`. -/
def monthMeans (data : Table) (fy ty : Int) : List ℚ :=
  (monthGrid fy ty).filterMap (monthMeanOpt data)

/-- Position of a date's calendar month in the month grid starting at year
`fy` (as an integer, so that rows before year `fy` get a negative value). -/
def monthPos (fy : Int) (d : Date) : Int := (d.year - fy) * 12 + (d.month : Int) - 1

/-- The largest monthly mean day-variation (months without observed days
excluded), bounded below by the scan's starting value `0` (stated from the
spec's words, to be compared with `highest_monthly_mean_variation`). -/
def specMaxMonthlyMean (data : Table) (fy ty : Int) : ℚ :=
  (monthMeans data fy ty).foldl max 0

/-- The `(index, maxmean, aux)` state of `highest_monthly_mean_variation`'s
loop after its first `k` month iterations. -/
def hmmvState (data : Table) (fy : Int) (k : Nat) : Nat × ℚ × Nat :=
  ((List.range k).map (gridMonth fy)).foldl (hmmvStep data) (0, 0, 0)

/-- The means of the nonempty months among the first `k` month iterations. -/
def meansUpTo (data : Table) (fy : Int) (k : Nat) : List ℚ :=
  ((List.range k).map (gridMonth fy)).filterMap (monthMeanOpt data)

/-! ### Concrete tables for witnesses and counterexamples -/

/-- Row builder for concrete tables: date, high, low, close, dividend;
the remaining columns are irrelevant to the claims. -/
def sampleRow (d : Date) (hi lo cl dv : ℚ) : Row :=
  ⟨d, 0, hi, lo, cl, 0, 0, dv, 1⟩

/-- Two 2020 rows whose last row (Dec 31) carries a non-zero dividend. -/
def c1table : Table :=
  [sampleRow ⟨2020, 3, 10⟩ 10 9 9 1,
   sampleRow ⟨2020, 12, 31⟩ 10 9 9 2]

/-- A one-ticker table with a single day whose `low` exceeds its `high`. -/
def c4table : Table := [sampleRow ⟨2020, 1, 6⟩ 1 2 1 0]

/-- A three-row table used as a generic witness table. -/
def wtable : Table :=
  [sampleRow ⟨2020, 1, 6⟩ 4 2 3 0,
   sampleRow ⟨2020, 1, 7⟩ 9 3 4 1,
   sampleRow ⟨2020, 2, 4⟩ 6 5 5 0]

/-- Two months of anomalous data (every `high` below `low`): January's mean
variation is `-1`, February's is `-1/2`. -/
def c9table : Table :=
  [sampleRow ⟨2020, 1, 15⟩ 1 2 1 0,
   sampleRow ⟨2020, 2, 10⟩ 1 (3/2) 1 0]

/-!
## Theorems

General helper lemmas first, then one subsection per claim.
-/

section Helpers

theorem except_bind_ok {ε α β : Type} (a : α) (f : α → Except ε β) :
    (Except.ok (ε := ε) a >>= f) = f a := rfl

theorem except_bind_err {ε α β : Type} (e : ε) (f : α → Except ε β) :
    ((Except.error e : Except ε α) >>= f) = Except.error e := rfl

theorem contains_iff_mem_str {l : List String} {s : String} :
    l.contains s = true ↔ s ∈ l := List.elem_iff

theorem mapME_ok {α β : Type} (f : α → Except FinanceError β) (g : α → β)
    (l : List α) (h : ∀ a ∈ l, f a = .ok (g a)) :
    mapME f l = .ok (l.map g) := by
  induction l with
  | nil => rfl
  | cons a t ih =>
      have ha := h a (List.mem_cons_self a t)
      have ht := ih (fun x hx => h x (List.mem_cons_of_mem a hx))
      simp [mapME, ha, ht, except_bind_ok]

theorem mapME_ne_error {α β : Type} (f : α → Except FinanceError β)
    (l : List α) (e : FinanceError) (h : ∀ a ∈ l, f a ≠ .error e) :
    mapME f l ≠ .error e := by
  induction l with
  | nil => simp [mapME]
  | cons a t ih =>
      have ha := h a (List.mem_cons_self a t)
      have ht := ih (fun x hx => h x (List.mem_cons_of_mem a hx))
      simp only [mapME]
      cases hfa : f a with
      | error e' =>
          simp only [hfa, except_bind_err]
          intro hcontra
          exact ha (by rw [hfa]; cases hcontra; rfl)
      | ok b =>
          simp only [hfa, except_bind_ok]
          cases hrest : mapME f t with
          | error e' =>
              simp only [hrest, except_bind_err]
              intro hcontra
              exact ht (by rw [hrest]; cases hcontra; rfl)
          | ok bs => simp [hrest, except_bind_ok]

end Helpers

section ClaimC10

/-- C10: a truthy non-string `api_key` argument makes construction raise the
invalid-API-key error without consulting the `TEII_FINANCE_API_KEY`
environment variable (the outcome is the same whatever the environment
holds), while an explicitly supplied empty string takes exactly the same
path as an omitted key (both fall back to the environment variable). -/
theorem checkApiKey_truthy_nonstring_and_empty (v : PyVal) (env env2 : Option String)
    (h1 : v.truthy = true) (h2 : v.isStr = false) :
    checkApiKey v env = .error .invalidAPIKey ∧
    checkApiKey v env = checkApiKey v env2 ∧
    checkApiKey (.str "") env = checkApiKey .none env := by
  refine ⟨?_, ?_, ?_⟩
  · simp [checkApiKey, resolveApiKey, h1, h2]
  · simp [checkApiKey, resolveApiKey, h1, h2]
  · simp [checkApiKey, resolveApiKey, PyVal.truthy]

/-- Witness for `checkApiKey_truthy_nonstring_and_empty` at `api_key = 5`
with a usable key in the environment. -/
theorem checkApiKey_truthy_nonstring_and_empty_witness :
    checkApiKey (.int 5) (some "validkey") = .error .invalidAPIKey ∧
    checkApiKey (.int 5) (some "validkey") = checkApiKey (.int 5) Option.none ∧
    checkApiKey (.str "") (some "validkey") = checkApiKey .none (some "validkey") :=
  checkApiKey_truthy_nonstring_and_empty (.int 5) (some "validkey") Option.none
    (by decide) (by decide)

end ClaimC10

section ClaimC2

/-- C2: in `_query_api`, a non-200 status does abort construction with
`FinanceClientAPIError` carrying the failing URL and status, and nothing is
returned for any ticker; but a transport exception (a raising
`requests.get`) aborts with `IndexError` instead, because the `except`
clause formats the error message from `response[i]`, which was never
appended — contradicting both the claim and the clear intent of the
`raise FinanceClientAPIError(...)` statement. -/
theorem query_api_error_paths :
    query_api [FetchOutcome.resp "https://u1" 200, FetchOutcome.exn] =
      .error .indexError ∧
    query_api [FetchOutcome.exn] = .error .indexError ∧
    query_api [FetchOutcome.resp "https://u1" 200, FetchOutcome.resp "https://u2" 503] =
      .error (.apiError "https://u2" 503) ∧
    query_api [FetchOutcome.resp "https://u1" 200, FetchOutcome.resp "https://u2" 200] =
      .ok [("https://u1", 200), ("https://u2", 200)] :=
  ⟨rfl, rfl, rfl, rfl⟩

end ClaimC2

section ClaimC3

/-- C3 counterexample: raw data whose columns are the 8 expected labels plus
an unknown ninth column goes through the whole column-handling part of
`_build_data_frame` without any error — `rename` leaves the unknown label
untouched and `astype` ignores columns absent from its dtype mapping —
whereas the claim requires an invalid-data failure ("column names do not
match") at the renaming step. -/
theorem normalize_columns_extra_column_ok :
    normalize_columns (rawLabels ++ ["9. extra"]) =
      .ok ["open", "high", "low", "close", "aclose", "volume", "dividend",
           "splitc", "9. extra"] := rfl

/-- C3 amended: the renaming step itself never fails.  When every one of the
8 `FieldSpec` labels occurs among the raw columns, the column-handling steps
succeed (unknown extra columns pass through unchanged); when some `FieldSpec`
label is absent (and its canonical name is not already a column),
construction fails at the subsequent dtype-coercion step with the
invalid-data error "Cannot convert to expected datatypes" — not at the
renaming step and not with "column names do not match". -/
theorem normalize_columns_characterization (cols : List String) :
    ((∀ p ∈ data_field2name_type, p.1 ∈ cols) →
        normalize_columns cols = .ok (rename_columns cols)) ∧
    (∀ q ∈ data_field2name_type, q.1 ∉ cols → q.2.1 ∉ cols →
        normalize_columns cols =
          .error (.invalidData
            "Cannot convert to expected datatypes, error while formatting")) := by
  constructor
  · intro hall
    have hren : ∀ p ∈ data_field2name_type, rename1 p.1 = p.2.1 := by decide
    have hc : data_field2name_type.all
        (fun p => (rename_columns cols).contains p.2.1) = true := by
      rw [List.all_eq_true]
      intro p hp
      rw [contains_iff_mem_str]
      exact List.mem_map.mpr ⟨p.1, hall p hp, hren p hp⟩
    unfold normalize_columns astype_columns
    rw [if_pos hc]
  · intro q hq h1 h2
    have hinj : ∀ a ∈ data_field2name_type, ∀ b ∈ data_field2name_type,
        a.2.1 = b.2.1 → a = b := by decide
    have hc : ¬ data_field2name_type.all
        (fun p => (rename_columns cols).contains p.2.1) = true := by
      rw [List.all_eq_true]
      intro hforall
      have hmem : q.2.1 ∈ rename_columns cols :=
        contains_iff_mem_str.mp (hforall q hq)
      obtain ⟨c, hcmem, hcr⟩ := List.mem_map.mp hmem
      rcases hfind : data_field2name_type.find? (fun p => decide (p.1 = c)) with _ | u
      · rw [rename1, hfind] at hcr
        exact h2 (hcr ▸ hcmem)
      · rw [rename1, hfind] at hcr
        have hu : u ∈ data_field2name_type := List.mem_of_find?_eq_some hfind
        have huc : u.1 = c := by
          have := List.find?_some hfind
          simpa using this
        have huq : u = q := hinj u hu q hq hcr
        have : q.1 ∈ cols := by rw [← huq, huc]; exact hcmem
        exact h1 this
    unfold normalize_columns astype_columns
    rw [if_neg hc]

/-- Witness for `normalize_columns_characterization` at the exact 8 labels. -/
theorem normalize_columns_characterization_witness :
    normalize_columns rawLabels = .ok (rename_columns rawLabels) :=
  (normalize_columns_characterization rawLabels).1 (by decide)

end ClaimC3

section ClaimC1

/-- C1: the positional slice `series.iloc[from_date:to_date]` of
`yearly_dividends` excludes its upper bound, which `get_loc(..., 'ffill')`
computed as the position of the year's last row; so the dividend paid on the
last row on or before Dec 31 is left out of the year's sum.  On `c1table`
(dividends 1 on 2020-03-10 and 2 on 2020-12-31) the method reports 1 for
2020, while the sum of the year's non-zero dividends is 3. -/
theorem yearly_dividends_misses_year_end :
    yearly_dividends [c1table] (.int 2020) (.int 2020) =
      .ok [[(⟨2020, 1, 1⟩, 1)]] ∧
    specYearlyDividendSum c1table 2020 = 3 ∧
    (1 : ℚ) ≠ 3 := by
  refine ⟨?_, ?_, by norm_num⟩
  · norm_num [yearly_dividends, mapME, yearly_dividends_one, yd_loop, yd_year, intRange,
      bfillIdx, ffillIdx, dividendCol, c1table, sampleRow, Date.key, except_bind_ok]
  · norm_num [specYearlyDividendSum, c1table, sampleRow]

end ClaimC1

section ClaimC5

theorem mapME_cons_error {α β : Type} (f : α → Except FinanceError β) (a : α)
    (l : List α) (e : FinanceError) (h : f a = .error e) :
    mapME f (a :: l) = .error e := by
  simp [mapME, h, except_bind_err]

/-- C5: for a client with at least one ticker, every range-accepting query
method raises `FinanceClientParamError` whenever both bounds are supplied
with `from` strictly greater than `to` (dates for the daily methods, years
for the dividend methods; the checks run inside the per-ticker loop, so at
least one table must exist). -/
theorem from_after_to_raises_param_error (t : Table) (rest : List Table)
    (d1 d2 : Date) (y1 y2 : Int) (hd : d2.key < d1.key) (hy : y2 < y1) :
    daily_price (t :: rest) (.date d1) (.date d2) = .error .paramError ∧
    daily_volume (t :: rest) (.date d1) (.date d2) = .error .paramError ∧
    yearly_dividends (t :: rest) (.int y1) (.int y2) = .error .paramError ∧
    yearly_dividends_per_quarter (t :: rest) (.int y1) (.int y2) =
      .error .paramError := by
  refine ⟨mapME_cons_error _ _ _ _ ?_, mapME_cons_error _ _ _ _ ?_,
          mapME_cons_error _ _ _ _ ?_, mapME_cons_error _ _ _ _ ?_⟩ <;>
    simp [daily_price_one, daily_volume_one, yearly_dividends_one,
      yearly_dividends_per_quarter_one, hd, hy]

/-- Witness for `from_after_to_raises_param_error` with an inverted date
pair and an inverted year pair. -/
theorem from_after_to_raises_param_error_witness :
    daily_price [wtable] (.date ⟨2021, 1, 1⟩) (.date ⟨2020, 1, 1⟩) =
      .error .paramError ∧
    daily_volume [wtable] (.date ⟨2021, 1, 1⟩) (.date ⟨2020, 1, 1⟩) =
      .error .paramError ∧
    yearly_dividends [wtable] (.int 2021) (.int 2020) = .error .paramError ∧
    yearly_dividends_per_quarter [wtable] (.int 2021) (.int 2020) =
      .error .paramError :=
  from_after_to_raises_param_error wtable [] ⟨2021, 1, 1⟩ ⟨2020, 1, 1⟩ 2021 2020
    (by norm_num [Date.key]) (by norm_num)

end ClaimC5

section ClaimC6

theorem bfillIdx_error {α : Type} {l : List (Date × α)} {d : Date}
    {e : FinanceError} (h : bfillIdx l d = .error e) : e = .keyError := by
  unfold bfillIdx at h
  cases hf : List.findIdx? (fun p => decide (d.key ≤ p.1.key)) l with
  | none => simp only [hf] at h; injection h with h1; exact h1.symm
  | some i => simp only [hf] at h; cases h

theorem ffillIdx_error {α : Type} {l : List (Date × α)} {d : Date}
    {e : FinanceError} (h : ffillIdx l d = .error e) : e = .keyError := by
  unfold ffillIdx at h
  simp only [] at h
  split at h
  · injection h with h1; exact h1.symm
  · cases h

theorem yd_year_ne_paramError (divcol : List (Date × ℚ)) (i : Int) :
    yd_year divcol i ≠ .error .paramError := by
  unfold yd_year
  cases hb : bfillIdx divcol ⟨i, 1, 1⟩ with
  | error e =>
      have he := bfillIdx_error hb
      simp [he]
  | ok a =>
      cases hf : ffillIdx divcol ⟨i, 12, 31⟩ with
      | error e =>
          have he := ffillIdx_error hf
          simp [he]
      | ok b => simp

theorem yd_loop_ne_paramError (divcol : List (Date × ℚ)) (ys : List Int) :
    yd_loop divcol ys ≠ .error .paramError := by
  induction ys with
  | nil => simp [yd_loop]
  | cons i rest ih =>
      simp only [yd_loop]
      cases hy : yd_year divcol i with
      | error e =>
          simp only [hy, except_bind_err]
          intro hcontra
          have he : e = .paramError := by cases hcontra; rfl
          exact yd_year_ne_paramError divcol i (by rw [hy, he])
      | ok v =>
          simp only [hy, except_bind_ok]
          cases hr : yd_loop divcol rest with
          | error e =>
              simp only [hr, except_bind_err]
              intro hcontra
              have he : e = .paramError := by cases hcontra; rfl
              exact ih (by rw [hr, he])
          | ok vs => simp

theorem yearly_dividends_one_omitted_ne_paramError (data : Table) (f : PyVal) :
    yearly_dividends_one data f .none ≠ .error .paramError := by
  unfold yearly_dividends_one
  rw [if_neg (by simp)]
  cases data with
  | nil => simp
  | cons r0 tl => exact yd_loop_ne_paramError _ _

theorem daily_price_one_both_nondate (data : Table) {f g : PyVal}
    (hf : f ≠ .none) (hg : g ≠ .none)
    (hdate : f.isDate = false ∨ g.isDate = false) :
    daily_price_one data f g = .error .paramError := by
  cases f <;> cases g <;> simp_all [daily_price_one, PyVal.isDate]

theorem daily_volume_one_both_nondate (data : Table) {f g : PyVal}
    (hf : f ≠ .none) (hg : g ≠ .none)
    (hdate : f.isDate = false ∨ g.isDate = false) :
    daily_volume_one data f g = .error .paramError := by
  cases f <;> cases g <;> simp_all [daily_volume_one, PyVal.isDate]

theorem yearly_dividends_one_both_nonint (data : Table) {f g : PyVal}
    (hf : f ≠ .none) (hg : g ≠ .none)
    (hint : f.isInt = false ∨ g.isInt = false) :
    yearly_dividends_one data f g = .error .paramError := by
  cases f <;> cases g <;> simp_all [yearly_dividends_one, PyVal.isInt]

theorem yearly_dividends_per_quarter_one_both_nonint (data : Table) {f g : PyVal}
    (hf : f ≠ .none) (hg : g ≠ .none)
    (hint : f.isInt = false ∨ g.isInt = false) :
    yearly_dividends_per_quarter_one data f g = .error .paramError := by
  cases f <;> cases g <;> simp_all [yearly_dividends_per_quarter_one, PyVal.isInt]

/-- C6 counterexample: passing the non-date string `"Lunes"` as `from_date`
with `to_date` omitted does not raise any error — `daily_price` returns the
full close series — whereas the claim requires `FinanceClientParamError`
also when the other bound is omitted. -/
theorem daily_price_nondate_with_omitted_bound_ok :
    daily_price [wtable] (.str "Lunes") .none = .ok [closeCol wtable] ∧
    daily_price [wtable] (.str "Lunes") .none ≠ .error .paramError := by
  have h : daily_price [wtable] (.str "Lunes") .none = .ok [closeCol wtable] := by
    simp [daily_price, mapME, daily_price_one, except_bind_ok]
  exact ⟨h, by rw [h]; simp⟩

/-- C6 amended: the argument validation of the range-accepting methods runs
only when both bounds are supplied.  With both supplied, a bound of the
wrong type (non-date for the daily methods, non-integer for the year
methods) raises `FinanceClientParamError`; with either bound omitted
(`None`), the other bound is not validated at all — the daily methods and
`yearly_dividends_per_quarter` return their unrestricted series and
`yearly_dividends` never raises `FinanceClientParamError`. -/
theorem bound_type_checked_only_when_both_supplied (t : Table) (rest : List Table)
    (f g fy gy : PyVal)
    (hf : f ≠ .none) (hg : g ≠ .none)
    (hdate : f.isDate = false ∨ g.isDate = false)
    (hfy : fy ≠ .none) (hgy : gy ≠ .none)
    (hint : fy.isInt = false ∨ gy.isInt = false) :
    daily_price (t :: rest) f g = .error .paramError ∧
    daily_volume (t :: rest) f g = .error .paramError ∧
    yearly_dividends (t :: rest) fy gy = .error .paramError ∧
    yearly_dividends_per_quarter (t :: rest) fy gy = .error .paramError ∧
    daily_price (t :: rest) f .none = .ok ((t :: rest).map closeCol) ∧
    daily_price (t :: rest) .none g = .ok ((t :: rest).map closeCol) ∧
    daily_volume (t :: rest) f .none = .ok ((t :: rest).map volumeCol) ∧
    yearly_dividends_per_quarter (t :: rest) f .none =
      .ok ((t :: rest).map (fun data => (dividendCol data).filter (fun p => p.2 ≠ 0))) ∧
    yearly_dividends (t :: rest) f .none ≠ .error .paramError := by
  refine ⟨mapME_cons_error _ _ _ _ (daily_price_one_both_nondate t hf hg hdate),
          mapME_cons_error _ _ _ _ (daily_volume_one_both_nondate t hf hg hdate),
          mapME_cons_error _ _ _ _ (yearly_dividends_one_both_nonint t hfy hgy hint),
          mapME_cons_error _ _ _ _
            (yearly_dividends_per_quarter_one_both_nonint t hfy hgy hint),
          mapME_ok _ _ _ (fun a _ => ?_), mapME_ok _ _ _ (fun a _ => ?_),
          mapME_ok _ _ _ (fun a _ => ?_), mapME_ok _ _ _ (fun a _ => ?_),
          mapME_ne_error _ _ _
            (fun a _ => yearly_dividends_one_omitted_ne_paramError a f)⟩
  · simp [daily_price_one]
  · simp [daily_price_one]
  · simp [daily_volume_one]
  · simp [yearly_dividends_per_quarter_one]

/-- Witness for `bound_type_checked_only_when_both_supplied` at a one-table
client with a string date bound and a string year bound. -/
theorem bound_type_checked_only_when_both_supplied_witness :
    daily_price [wtable] (.str "Lunes") (.date ⟨2020, 1, 1⟩) = .error .paramError ∧
    daily_volume [wtable] (.str "Lunes") (.date ⟨2020, 1, 1⟩) = .error .paramError ∧
    yearly_dividends [wtable] (.str "Lunes") (.int 2020) = .error .paramError ∧
    yearly_dividends_per_quarter [wtable] (.str "Lunes") (.int 2020) =
      .error .paramError ∧
    daily_price [wtable] (.str "Lunes") .none = .ok ([wtable].map closeCol) ∧
    daily_price [wtable] .none (.date ⟨2020, 1, 1⟩) = .ok ([wtable].map closeCol) ∧
    daily_volume [wtable] (.str "Lunes") .none = .ok ([wtable].map volumeCol) ∧
    yearly_dividends_per_quarter [wtable] (.str "Lunes") .none =
      .ok ([wtable].map (fun data => (dividendCol data).filter (fun p => p.2 ≠ 0))) ∧
    yearly_dividends [wtable] (.str "Lunes") .none ≠ .error .paramError :=
  bound_type_checked_only_when_both_supplied wtable [] (.str "Lunes")
    (.date ⟨2020, 1, 1⟩) (.str "Lunes") (.int 2020)
    (by simp) (by simp) (by simp [PyVal.isDate]) (by simp) (by simp)
    (by simp [PyVal.isInt])

end ClaimC6

section ClaimC7

theorem mem_insertByDate {r x : Row} {l : List Row} :
    x ∈ insertByDate r l ↔ x = r ∨ x ∈ l := by
  induction l with
  | nil => simp [insertByDate]
  | cons a t ih =>
      rw [insertByDate]
      by_cases hc : r.date.key ≤ a.date.key
      · rw [if_pos hc]; simp
      · rw [if_neg hc]; simp [ih]; tauto

theorem insertByDate_perm (r : Row) (l : List Row) :
    List.Perm (insertByDate r l) (r :: l) := by
  induction l with
  | nil => exact List.Perm.refl _
  | cons a t ih =>
      rw [insertByDate]
      by_cases hc : r.date.key ≤ a.date.key
      · rw [if_pos hc]
      · rw [if_neg hc]
        exact (ih.cons a).trans (List.Perm.swap r a t)

theorem sort_index_perm (l : List Row) : List.Perm (sort_index l) l := by
  induction l with
  | nil => exact List.Perm.refl _
  | cons a t ih => exact (insertByDate_perm a (sort_index t)).trans (ih.cons a)

theorem pairwise_le_insertByDate (r : Row) (l : List Row)
    (h : l.Pairwise (fun a b => a.date.key ≤ b.date.key)) :
    (insertByDate r l).Pairwise (fun a b => a.date.key ≤ b.date.key) := by
  induction l with
  | nil => simp [insertByDate]
  | cons a t ih =>
      rw [List.pairwise_cons] at h
      obtain ⟨ha, ht⟩ := h
      rw [insertByDate]
      by_cases hc : r.date.key ≤ a.date.key
      · rw [if_pos hc]
        refine List.Pairwise.cons ?_ (List.Pairwise.cons ha ht)
        intro b hb
        rcases List.mem_cons.mp hb with rfl | hbt
        · exact hc
        · exact le_trans hc (ha b hbt)
      · rw [if_neg hc]
        refine List.Pairwise.cons ?_ (ih ht)
        intro b hb
        rcases mem_insertByDate.mp hb with rfl | hbt
        · exact le_of_not_le hc
        · exact ha b hbt

theorem sort_index_pairwise_le (l : List Row) :
    (sort_index l).Pairwise (fun a b => a.date.key ≤ b.date.key) := by
  induction l with
  | nil => simp [sort_index]
  | cons a t ih => exact pairwise_le_insertByDate a (sort_index t) ih

/-- C7: for any raw payload whose (parsed) dates are pairwise distinct — as
the provider's JSON object guarantees, its records being keyed by distinct
ISO date strings — the table built by `_build_data_frame`'s
`sort_index(ascending=True)` has a strictly increasing date index with no
duplicates.  In this pure embedding the query methods receive the table by
value and return fresh lists, so the table is never mutated after
construction and the invariant holds at every later point. -/
theorem sort_index_strictly_increasing (raw : List Row)
    (h : (raw.map (fun r => r.date.key)).Nodup) :
    (sort_index raw).Pairwise (fun a b => a.date.key < b.date.key) := by
  have hle := sort_index_pairwise_le raw
  have hperm := sort_index_perm raw
  have hnd : ((sort_index raw).map (fun r => r.date.key)).Nodup :=
    ((hperm.map (fun r => r.date.key)).nodup_iff).mpr h
  exact (hle.and (List.pairwise_map.mp hnd)).imp
    (fun hab => lt_of_le_of_ne hab.1 hab.2)

/-- Witness for `sort_index_strictly_increasing` at a concrete out-of-order
payload. -/
theorem sort_index_strictly_increasing_witness :
    (sort_index [sampleRow ⟨2020, 1, 7⟩ 9 3 4 1, sampleRow ⟨2020, 1, 6⟩ 4 2 3 0]).Pairwise
      (fun a b => a.date.key < b.date.key) :=
  sort_index_strictly_increasing _ (by decide)

end ClaimC7

section ClaimC8

theorem takeWhile_le_eq_filter {α : Type} (c : Int) (l : List (Date × α))
    (h : l.Pairwise (fun a b => a.1.key ≤ b.1.key)) :
    l.takeWhile (fun p => decide (p.1.key ≤ c)) =
      l.filter (fun p => decide (p.1.key ≤ c)) := by
  induction l with
  | nil => rfl
  | cons a t ih =>
      rw [List.pairwise_cons] at h
      by_cases ha : a.1.key ≤ c
      · rw [List.takeWhile_cons_of_pos (by simpa using ha),
            List.filter_cons_of_pos (by simpa using ha)]
        exact congrArg _ (ih h.2)
      · rw [List.takeWhile_cons_of_neg (by simpa using ha),
            List.filter_cons_of_neg (by simpa using ha)]
        symm
        rw [List.filter_eq_nil_iff]
        intro b hb
        simp only [decide_eq_true_eq]
        intro hbc
        exact ha (le_trans (h.1 b hb) hbc)

theorem dropWhile_lt_eq_filter {α : Type} (c : Int) (l : List (Date × α))
    (h : l.Pairwise (fun a b => a.1.key ≤ b.1.key)) :
    l.dropWhile (fun p => decide (p.1.key < c)) =
      l.filter (fun p => decide (¬ p.1.key < c)) := by
  induction l with
  | nil => rfl
  | cons a t ih =>
      rw [List.pairwise_cons] at h
      by_cases ha : a.1.key < c
      · rw [List.dropWhile_cons_of_pos (by simpa using ha),
            List.filter_cons_of_neg (by simpa using ha)]
        exact ih h.2
      · rw [List.dropWhile_cons_of_neg (by simpa using ha),
            List.filter_cons_of_pos (by simpa using ha)]
        congr 1
        symm
        rw [List.filter_eq_self]
        intro b hb
        simp only [decide_eq_true_eq]
        exact fun hblt => ha (lt_of_le_of_lt (h.1 b hb) hblt)

theorem locSlice_eq_filter {α : Type} (l : List (Date × α)) (d1 d2 : Date)
    (h : l.Pairwise (fun a b => a.1.key ≤ b.1.key)) :
    locSlice l d1 d2 =
      l.filter (fun p => decide (d1.key ≤ p.1.key ∧ p.1.key ≤ d2.key)) := by
  unfold locSlice
  rw [dropWhile_lt_eq_filter _ _ h, takeWhile_le_eq_filter _ _ (h.filter _),
      List.filter_filter]
  apply List.filter_congr
  intro p _
  by_cases h1 : d1.key ≤ p.1.key <;> by_cases h2 : p.1.key ≤ d2.key <;>
    simp [h1, h2, not_lt]

/-- C8: with both dates supplied in order, `daily_price(d1, d2)` returns,
per ticker, exactly the entries of the unrestricted `daily_price()` whose
date lies in the inclusive interval `[d1, d2]`, and that restricted series
is a subsequence of the unrestricted one. -/
theorem daily_price_range_subsequence (tables : List Table)
    (hs : ∀ t ∈ tables, t.Pairwise (fun a b => a.date.key ≤ b.date.key))
    (d1 d2 : Date) (h12 : d1.key ≤ d2.key) :
    daily_price tables (.date d1) (.date d2) =
      .ok (tables.map (fun t => (closeCol t).filter
        (fun p => decide (d1.key ≤ p.1.key ∧ p.1.key ≤ d2.key)))) ∧
    daily_price tables .none .none = .ok (tables.map closeCol) ∧
    (∀ t ∈ tables, ((closeCol t).filter
        (fun p => decide (d1.key ≤ p.1.key ∧ p.1.key ≤ d2.key))).Sublist (closeCol t)) ∧
    (∀ t ∈ tables, ∀ p, p ∈ (closeCol t).filter
        (fun p => decide (d1.key ≤ p.1.key ∧ p.1.key ≤ d2.key)) ↔
        (p ∈ closeCol t ∧ d1.key ≤ p.1.key ∧ p.1.key ≤ d2.key)) := by
  refine ⟨?_, ?_, ?_, ?_⟩
  · apply mapME_ok
    intro t ht
    have hsp : (closeCol t).Pairwise (fun a b => a.1.key ≤ b.1.key) :=
      List.pairwise_map.mpr (hs t ht)
    have hno : ¬ d2.key < d1.key := not_lt.mpr h12
    simp only [daily_price_one, hno, ite_false]
    rw [locSlice_eq_filter _ _ _ hsp]
    simp
  · apply mapME_ok
    intro t ht
    simp [daily_price_one]
  · intro t ht
    exact List.filter_sublist _
  · intro t ht p
    simp [List.mem_filter, and_assoc]

/-- Witness for `daily_price_range_subsequence` at a concrete table and a
concrete date range. -/
theorem daily_price_range_subsequence_witness :
    daily_price [wtable] (.date ⟨2020, 1, 7⟩) (.date ⟨2020, 2, 4⟩) =
      .ok ([wtable].map (fun t => (closeCol t).filter
        (fun p => decide ((⟨2020, 1, 7⟩ : Date).key ≤ p.1.key ∧
          p.1.key ≤ (⟨2020, 2, 4⟩ : Date).key)))) ∧
    daily_price [wtable] .none .none = .ok ([wtable].map closeCol) ∧
    (∀ t ∈ [wtable], ((closeCol t).filter
        (fun p => decide ((⟨2020, 1, 7⟩ : Date).key ≤ p.1.key ∧
          p.1.key ≤ (⟨2020, 2, 4⟩ : Date).key))).Sublist (closeCol t)) ∧
    (∀ t ∈ [wtable], ∀ p, p ∈ (closeCol t).filter
        (fun p => decide ((⟨2020, 1, 7⟩ : Date).key ≤ p.1.key ∧
          p.1.key ≤ (⟨2020, 2, 4⟩ : Date).key)) ↔
        (p ∈ closeCol t ∧ (⟨2020, 1, 7⟩ : Date).key ≤ p.1.key ∧
          p.1.key ≤ (⟨2020, 2, 4⟩ : Date).key)) :=
  daily_price_range_subsequence [wtable] (by decide) ⟨2020, 1, 7⟩ ⟨2020, 2, 4⟩
    (by decide)

end ClaimC8

section ClaimC4

theorem le_foldl_max (l : List ℚ) (a : ℚ) : a ≤ l.foldl max a := by
  induction l generalizing a with
  | nil => exact le_refl a
  | cons d t ih =>
      rw [List.foldl_cons]
      exact le_trans (le_max_left a d) (ih (max a d))

theorem mem_le_foldl_max {x : ℚ} {l : List ℚ} (h : x ∈ l) (a : ℚ) :
    x ≤ l.foldl max a := by
  induction l generalizing a with
  | nil => cases h
  | cons d t ih =>
      rw [List.foldl_cons]
      rcases List.mem_cons.mp h with rfl | ht
      · exact le_trans (le_max_right a x) (le_foldl_max t (max a x))
      · exact ih ht (max a d)

theorem foldl_max_eq_of_le {l : List ℚ} {a : ℚ} (h : ∀ x ∈ l, x ≤ a) :
    l.foldl max a = a := by
  induction l with
  | nil => rfl
  | cons d t ih =>
      rw [List.foldl_cons, max_eq_left (h d (List.mem_cons_self d t))]
      exact ih (fun x hx => h x (List.mem_cons_of_mem d hx))

theorem hdvScan_maxdiff (l : List (ℚ × ℚ)) (i idx : Nat) (md : ℚ) :
    (hdvScan l i idx md).2 = (l.map (fun p => p.1 - p.2)).foldl max md := by
  induction l generalizing i idx md with
  | nil => rfl
  | cons p t ih =>
      obtain ⟨ph, pl⟩ := p
      rw [List.map_cons, List.foldl_cons, hdvScan]
      by_cases hc : md < ph - pl
      · rw [if_pos hc, ih, max_eq_right (le_of_lt hc)]
      · rw [if_neg hc, ih, max_eq_left (le_of_not_lt hc)]

theorem hdvScan_no_update (l : List (ℚ × ℚ)) (i idx : Nat) (md : ℚ)
    (h : ∀ d ∈ l.map (fun p => p.1 - p.2), d ≤ md) :
    hdvScan l i idx md = (idx, md) := by
  induction l generalizing i with
  | nil => rfl
  | cons p t ih =>
      obtain ⟨ph, pl⟩ := p
      have h0 : ph - pl ≤ md := h (ph - pl) (by simp)
      rw [hdvScan, if_neg (not_lt.mpr h0)]
      refine ih (i + 1) ?_
      intro d hd
      refine h d ?_
      rw [List.map_cons]
      exact List.mem_cons_of_mem _ hd

theorem hdvScan_argmax (l : List (ℚ × ℚ)) (i idx : Nat) (md : ℚ)
    (hpos : ∃ d ∈ l.map (fun p => p.1 - p.2), md < d) :
    ∃ j, (l.map (fun p => p.1 - p.2)).get? j = some ((hdvScan l i idx md).2) ∧
      (hdvScan l i idx md).1 = i + j ∧
      (∀ k < j, ∀ q, (l.map (fun p => p.1 - p.2)).get? k = some q →
        q < (hdvScan l i idx md).2) := by
  induction l generalizing i idx md with
  | nil => simp at hpos
  | cons p t ih =>
      obtain ⟨ph, pl⟩ := p
      by_cases hc : md < ph - pl
      · have hstep : hdvScan ((ph, pl) :: t) i idx md =
            hdvScan t (i + 1) i (ph - pl) := by rw [hdvScan, if_pos hc]
        by_cases hrest : ∃ d ∈ t.map (fun p => p.1 - p.2), (ph - pl) < d
        · obtain ⟨j', h1, h2, h3⟩ := ih (i + 1) i (ph - pl) hrest
          refine ⟨j' + 1, ?_, ?_, ?_⟩
          · rw [hstep, List.map_cons, List.get?_cons_succ]; exact h1
          · rw [hstep, h2]; omega
          · intro k hk q hq
            rw [hstep]
            match k with
            | 0 =>
                rw [List.map_cons, List.get?_cons_zero] at hq
                obtain rfl : ph - pl = q := Option.some.inj hq
                obtain ⟨d, hd, hlt⟩ := hrest
                rw [hdvScan_maxdiff]
                exact lt_of_lt_of_le hlt (mem_le_foldl_max hd _)
            | k' + 1 =>
                rw [List.map_cons, List.get?_cons_succ] at hq
                exact h3 k' (by omega) q hq
        · push_neg at hrest
          have hfin : hdvScan t (i + 1) i (ph - pl) = (i, ph - pl) :=
            hdvScan_no_update t (i + 1) i (ph - pl) hrest
          refine ⟨0, ?_, ?_, ?_⟩
          · rw [hstep, hfin, List.map_cons, List.get?_cons_zero]
          · rw [hstep, hfin]
            simp
          · intro k hk q hq
            omega
      · have hstep : hdvScan ((ph, pl) :: t) i idx md =
            hdvScan t (i + 1) idx md := by rw [hdvScan, if_neg hc]
        have hrest' : ∃ d ∈ t.map (fun p => p.1 - p.2), md < d := by
          obtain ⟨d, hd, hmd⟩ := hpos
          rw [List.map_cons] at hd
          rcases List.mem_cons.mp hd with rfl | hd'
          · exact absurd hmd hc
          · exact ⟨d, hd', hmd⟩
        obtain ⟨j', h1, h2, h3⟩ := ih (i + 1) idx md hrest'
        refine ⟨j' + 1, ?_, ?_, ?_⟩
        · rw [hstep, List.map_cons, List.get?_cons_succ]; exact h1
        · rw [hstep, h2]; omega
        · intro k hk q hq
          rw [hstep]
          match k with
          | 0 =>
              rw [List.map_cons, List.get?_cons_zero] at hq
              obtain rfl : ph - pl = q := Option.some.inj hq
              obtain ⟨d, hd, hmd⟩ := hrest'
              have hfin2 : md < (hdvScan t (i + 1) idx md).2 := by
                rw [hdvScan_maxdiff]
                exact lt_of_lt_of_le hmd (mem_le_foldl_max hd _)
              exact lt_of_le_of_lt (le_of_not_lt hc) hfin2
          | k' + 1 =>
              rw [List.map_cons, List.get?_cons_succ] at hq
              exact h3 k' (by omega) q hq

/-- C4 counterexample: on a table with a single day whose `low` exceeds its
`high`, `highest_daily_variation()` returns that day with magnitude `0` (the
initial running maximum), not `high - low = -1` as the claim's "in
particular, on a table with a single day of data it returns that day with
variation high - low" requires. -/
theorem highest_daily_variation_single_negative_day :
    highest_daily_variation [c4table] = .ok [(⟨2020, 1, 6⟩, 1, 2, 0)] ∧
    (0 : ℚ) ≠ 1 - 2 := by
  constructor
  · norm_num [highest_daily_variation, mapME, highest_daily_variation_one, hdvScan,
      c4table, sampleRow, except_bind_ok]
  · norm_num

/-- C4 amended: on any non-empty table, `highest_daily_variation` returns
the date, high and low of the row at the winning index together with the
final running maximum `max 0 (largest high - low)`; when some row has a
strictly positive variation, the winning index is the first row attaining
the largest variation (all earlier rows are strictly smaller) and the
reported magnitude is that variation; when every variation is `≤ 0`
(including a single-day table with `high < low`), the first row is returned
with the initial baseline `0`; on a single-day table with `high ≥ low` this
specializes to that day with magnitude `high - low`, and no error is
raised. -/
theorem highest_daily_variation_characterization (data : Table)
    (hne : data ≠ []) :
    ∃ idx r, data.get? idx = some r ∧
      highest_daily_variation_one data =
        .ok (r.date, r.high, r.low, (diffs data).foldl max 0) ∧
      ((∃ q ∈ diffs data, 0 < q) →
        (diffs data).get? idx = some ((diffs data).foldl max 0) ∧
        ∀ k < idx, ∀ q, (diffs data).get? k = some q →
          q < (diffs data).foldl max 0) ∧
      ((∀ q ∈ diffs data, q ≤ 0) → idx = 0 ∧ (diffs data).foldl max 0 = 0) := by
  have hdiff : (data.map (fun r => (r.high, r.low))).map (fun p => p.1 - p.2) =
      diffs data := by
    rw [List.map_map]; rfl
  have hmd := hdvScan_maxdiff (data.map (fun r => (r.high, r.low))) 0 0 0
  rw [hdiff] at hmd
  by_cases hpos : ∃ q ∈ diffs data, 0 < q
  · obtain ⟨j, h1, h2, h3⟩ :=
      hdvScan_argmax (data.map (fun r => (r.high, r.low))) 0 0 0
        (by rw [hdiff]; exact hpos)
    rw [hdiff] at h1 h3
    rw [hmd] at h1 h3
    have h2' : (hdvScan (data.map (fun r => (r.high, r.low))) 0 0 0).1 = j := by
      simpa using h2
    have hjlen : j < data.length := by
      obtain ⟨hlt, -⟩ := List.get?_eq_some.mp h1
      simpa [diffs] using hlt
    have hr : data.get? j = some (data.get ⟨j, hjlen⟩) := List.get?_eq_get hjlen
    have hres : highest_daily_variation_one data =
        .ok ((data.get ⟨j, hjlen⟩).date, (data.get ⟨j, hjlen⟩).high,
          (data.get ⟨j, hjlen⟩).low,
          (hdvScan (data.map (fun r => (r.high, r.low))) 0 0 0).2) := by
      simp only [highest_daily_variation_one]
      rw [h2', hr]
    refine ⟨j, data.get ⟨j, hjlen⟩, hr, ?_, ?_, ?_⟩
    · rw [hres, hmd]
    · intro _
      exact ⟨h1, h3⟩
    · intro habs
      obtain ⟨q, hq, h0⟩ := hpos
      exact absurd h0 (not_lt.mpr (habs q hq))
  · push_neg at hpos
    have hnoupd := hdvScan_no_update (data.map (fun r => (r.high, r.low))) 0 0 0
      (by rw [hdiff]; exact hpos)
    have hM : (diffs data).foldl max 0 = 0 := foldl_max_eq_of_le hpos
    obtain ⟨r0, tl, rfl⟩ : ∃ r0 tl, data = r0 :: tl := by
      cases data with
      | nil => exact absurd rfl hne
      | cons a t => exact ⟨a, t, rfl⟩
    refine ⟨0, r0, rfl, ?_, ?_, ?_⟩
    · simp only [highest_daily_variation_one]
      rw [hnoupd, hM]
      rfl
    · intro habs
      obtain ⟨q, hq, h0⟩ := habs
      exact absurd h0 (not_lt.mpr (hpos q hq))
    · intro _
      exact ⟨rfl, hM⟩

/-- Witness for `highest_daily_variation_characterization` at a table with
a single day of data whose variation is `high - low = 3`. -/
theorem highest_daily_variation_characterization_witness :
    ∃ idx r, [sampleRow ⟨2020, 1, 6⟩ 5 2 3 0].get? idx = some r ∧
      highest_daily_variation_one [sampleRow ⟨2020, 1, 6⟩ 5 2 3 0] =
        .ok (r.date, r.high, r.low,
          (diffs [sampleRow ⟨2020, 1, 6⟩ 5 2 3 0]).foldl max 0) ∧
      ((∃ q ∈ diffs [sampleRow ⟨2020, 1, 6⟩ 5 2 3 0], 0 < q) →
        (diffs [sampleRow ⟨2020, 1, 6⟩ 5 2 3 0]).get? idx =
          some ((diffs [sampleRow ⟨2020, 1, 6⟩ 5 2 3 0]).foldl max 0) ∧
        ∀ k < idx, ∀ q, (diffs [sampleRow ⟨2020, 1, 6⟩ 5 2 3 0]).get? k = some q →
          q < (diffs [sampleRow ⟨2020, 1, 6⟩ 5 2 3 0]).foldl max 0) ∧
      ((∀ q ∈ diffs [sampleRow ⟨2020, 1, 6⟩ 5 2 3 0], q ≤ 0) →
        idx = 0 ∧ (diffs [sampleRow ⟨2020, 1, 6⟩ 5 2 3 0]).foldl max 0 = 0) :=
  highest_daily_variation_characterization [sampleRow ⟨2020, 1, 6⟩ 5 2 3 0]
    (by simp)

end ClaimC4

section ClaimC9

theorem daysInMonth_bounds (y : Int) (m : Nat) :
    28 ≤ daysInMonth y m ∧ daysInMonth y m ≤ 31 := by
  unfold daysInMonth
  split_ifs <;> omega

theorem date_valid_bounds {d : Date} (h : d.Valid) :
    1 ≤ d.month ∧ d.month ≤ 12 ∧ 1 ≤ d.day ∧ d.day ≤ 31 := by
  obtain ⟨h1, h2, h3, h4⟩ := h
  exact ⟨h1, h2, h3, le_trans h4 (daysInMonth_bounds d.year d.month).2⟩

theorem monthPos_mono {a b : Date} (ha : a.Valid) (hb : b.Valid) (fy : Int)
    (h : a.key ≤ b.key) : monthPos fy a ≤ monthPos fy b := by
  obtain ⟨ha1, ha2, ha3, ha4⟩ := date_valid_bounds ha
  obtain ⟨hb1, hb2, hb3, hb4⟩ := date_valid_bounds hb
  unfold Date.key at h
  unfold monthPos
  omega

theorem key_in_month_iff {d : Date} (hd : d.Valid) (i : Int) (j : Nat)
    (hj1 : 1 ≤ j) (hj2 : j ≤ 12) :
    ((Date.mk i j 1).key ≤ d.key ∧ d.key ≤ (Date.mk i j (daysInMonth i j)).key) ↔
      (d.year = i ∧ d.month = j) := by
  obtain ⟨h1, h2, h3, h4⟩ := hd
  have hb := daysInMonth_bounds i j
  have hbd := daysInMonth_bounds d.year d.month
  unfold Date.key
  constructor
  · rintro ⟨hlo, hhi⟩
    simp only at hlo hhi
    constructor <;> omega
  · rintro ⟨hy, hm⟩
    subst hy
    subst hm
    simp only
    omega

theorem monthPos_eq_iff {d : Date} (hd : d.Valid) (fy : Int) (n : Nat) :
    (monthPos fy d = n) ↔
      (d.year = (gridMonth fy n).1 ∧ d.month = (gridMonth fy n).2) := by
  obtain ⟨h1, h2, _, _⟩ := date_valid_bounds hd
  unfold monthPos gridMonth
  simp only
  constructor
  · intro h
    constructor <;> omega
  · rintro ⟨hy, hm⟩
    omega

theorem gridMonth_month_bounds (fy : Int) (n : Nat) :
    1 ≤ (gridMonth fy n).2 ∧ (gridMonth fy n).2 ≤ 12 := by
  unfold gridMonth
  simp only
  omega

theorem monthSliceHL_eq_filter (data : Table)
    (hs : data.Pairwise (fun a b => a.date.key ≤ b.date.key))
    (hv : ∀ r ∈ data, r.date.Valid) (i : Int) (j : Nat)
    (hj1 : 1 ≤ j) (hj2 : j ≤ 12) :
    monthSliceHL data i j =
      (hlCol data).filter (fun p => decide (p.1.year = i ∧ p.1.month = j)) := by
  unfold monthSliceHL hlCol
  rw [locSlice_eq_filter _ _ _ (List.pairwise_map.mpr hs)]
  apply List.filter_congr
  intro p hp
  obtain ⟨r, hr, rfl⟩ := List.mem_map.mp hp
  simp only [decide_eq_decide]
  exact key_in_month_iff (hv r hr) i j hj1 hj2

theorem countP_congr_mine {α : Type} (l : List α) {p q : α → Bool}
    (h : ∀ a ∈ l, p a = q a) : l.countP p = l.countP q := by
  induction l with
  | nil => rfl
  | cons a t ih =>
      rw [List.countP_cons, List.countP_cons, h a (List.mem_cons_self a t),
        ih (fun x hx => h x (List.mem_cons_of_mem a hx))]

theorem countP_split_mine {α : Type} (l : List α) (p q r : α → Bool)
    (h : ∀ a ∈ l, (r a = true) ↔ ((p a = true) ∨ (q a = true)))
    (hdisj : ∀ a ∈ l, ¬(p a = true ∧ q a = true)) :
    l.countP r = l.countP p + l.countP q := by
  induction l with
  | nil => rfl
  | cons a t ih =>
      rw [List.countP_cons, List.countP_cons, List.countP_cons,
        ih (fun x hx => h x (List.mem_cons_of_mem a hx))
           (fun x hx => hdisj x (List.mem_cons_of_mem a hx))]
      have ha := h a (List.mem_cons_self a t)
      have hd := hdisj a (List.mem_cons_self a t)
      by_cases hp : p a = true <;> by_cases hq : q a = true
      · exact absurd ⟨hp, hq⟩ hd
      · have hr : r a = true := ha.mpr (Or.inl hp)
        simp [hr, hp, hq]
        omega
      · have hr : r a = true := ha.mpr (Or.inr hq)
        simp [hr, hp, hq]
        omega
      · have hr : ¬ (r a = true) := fun hc =>
          (ha.mp hc).elim (fun h1 => absurd h1 hp) (fun h2 => absurd h2 hq)
        simp [hr, hp, hq]

theorem monthSliceHL_length (data : Table)
    (hs : data.Pairwise (fun a b => a.date.key ≤ b.date.key))
    (hv : ∀ r ∈ data, r.date.Valid) (fy : Int) (n : Nat) :
    (monthSliceHL data (gridMonth fy n).1 (gridMonth fy n).2).length =
      data.countP (fun r => decide (monthPos fy r.date = (n : Int))) := by
  rw [monthSliceHL_eq_filter data hs hv _ _ (gridMonth_month_bounds fy n).1
    (gridMonth_month_bounds fy n).2]
  rw [← List.countP_eq_length_filter]
  unfold hlCol
  rw [List.countP_map]
  apply countP_congr_mine
  intro r hr
  simp only [Function.comp_apply, decide_eq_decide]
  exact (monthPos_eq_iff (hv r hr) fy n).symm

theorem hmmvStep_empty (data : Table) (st : Nat × ℚ × Nat) (ij : Int × Nat)
    (h : (monthSliceHL data ij.1 ij.2).length = 0) :
    hmmvStep data st ij =
      (st.1, st.2.1, st.2.2 + (monthSliceHL data ij.1 ij.2).length) := by
  unfold hmmvStep
  simp [h]

theorem hmmvStep_update (data : Table) (st : Nat × ℚ × Nat) (ij : Int × Nat)
    (h : (monthSliceHL data ij.1 ij.2).length ≠ 0)
    (hlt : st.2.1 < ((monthSliceHL data ij.1 ij.2).map (fun p => p.2.1 - p.2.2)).sum /
      ((monthSliceHL data ij.1 ij.2).length : ℚ)) :
    hmmvStep data st ij = (st.2.2 + (monthSliceHL data ij.1 ij.2).length - 1,
      ((monthSliceHL data ij.1 ij.2).map (fun p => p.2.1 - p.2.2)).sum /
        ((monthSliceHL data ij.1 ij.2).length : ℚ),
      st.2.2 + (monthSliceHL data ij.1 ij.2).length) := by
  unfold hmmvStep
  simp [h, hlt]

theorem hmmvStep_noupdate (data : Table) (st : Nat × ℚ × Nat) (ij : Int × Nat)
    (h : (monthSliceHL data ij.1 ij.2).length ≠ 0)
    (hge : ¬ st.2.1 < ((monthSliceHL data ij.1 ij.2).map (fun p => p.2.1 - p.2.2)).sum /
      ((monthSliceHL data ij.1 ij.2).length : ℚ)) :
    hmmvStep data st ij =
      (st.1, st.2.1, st.2.2 + (monthSliceHL data ij.1 ij.2).length) := by
  unfold hmmvStep
  simp [h, hge]

theorem monthMeanOpt_none (data : Table) (ij : Int × Nat)
    (h : (monthSliceHL data ij.1 ij.2).length = 0) :
    monthMeanOpt data ij = Option.none := by
  unfold monthMeanOpt
  simp [h]

theorem monthMeanOpt_some (data : Table) (ij : Int × Nat)
    (h : (monthSliceHL data ij.1 ij.2).length ≠ 0) :
    monthMeanOpt data ij =
      some (((monthSliceHL data ij.1 ij.2).map (fun p => p.2.1 - p.2.2)).sum /
        ((monthSliceHL data ij.1 ij.2).length : ℚ)) := by
  unfold monthMeanOpt
  simp [h]

theorem hmmvState_succ (data : Table) (fy : Int) (k : Nat) :
    hmmvState data fy (k + 1) =
      hmmvStep data (hmmvState data fy k) (gridMonth fy k) := by
  unfold hmmvState
  rw [List.range_succ, List.map_append, List.foldl_append]
  rfl

theorem meansUpTo_succ (data : Table) (fy : Int) (k : Nat) :
    meansUpTo data fy (k + 1) = meansUpTo data fy k ++
      (monthMeanOpt data (gridMonth fy k)).toList := by
  unfold meansUpTo
  rw [List.range_succ, List.map_append, List.filterMap_append]
  congr 1

/-- The loop invariant of `highest_monthly_mean_variation`: after `k` month
iterations, `aux` counts the rows of all months already visited, `maxmean`
is the maximum of `0` and the visited nonempty months' means, and when
`maxmean` is positive the recorded `index` points one past the rows of the
first month attaining `maxmean` (all earlier months having strictly smaller
means). -/
theorem hmmv_invariant (data : Table) (fy : Int)
    (hs : data.Pairwise (fun a b => a.date.key ≤ b.date.key))
    (hv : ∀ r ∈ data, r.date.Valid)
    (hlow : ∀ r ∈ data, 0 ≤ monthPos fy r.date) (k : Nat) :
    (hmmvState data fy k).2.2 =
      data.countP (fun r => decide (monthPos fy r.date < (k : Int))) ∧
    (hmmvState data fy k).2.1 = (meansUpTo data fy k).foldl max 0 ∧
    0 ≤ (hmmvState data fy k).2.1 ∧
    ((hmmvState data fy k).2.1 = 0 → (hmmvState data fy k).1 = 0) ∧
    (0 < (hmmvState data fy k).2.1 →
      ∃ n, n < k ∧ monthMeanOpt data (gridMonth fy n) =
          some ((hmmvState data fy k).2.1) ∧
        (∀ m < n, ∀ q, monthMeanOpt data (gridMonth fy m) = some q →
          q < (hmmvState data fy k).2.1) ∧
        (hmmvState data fy k).1 + 1 =
          data.countP (fun r => decide (monthPos fy r.date ≤ (n : Int)))) := by
  induction k with
  | zero =>
      refine ⟨?_, rfl, le_refl 0, fun _ => rfl, fun h => absurd h (lt_irrefl 0)⟩
      symm
      have h0 : (hmmvState data fy 0).2.2 = 0 := rfl
      rw [h0, List.countP_eq_zero]
      intro r hr
      have := hlow r hr
      simp only [decide_eq_true_eq]
      omega
  | succ k ih =>
      obtain ⟨ih1, ih2, ih3, ih4, ih5⟩ := ih
      have hlen := monthSliceHL_length data hs hv fy k
      have hsplit : data.countP (fun r => decide (monthPos fy r.date < ((k + 1 : Nat) : Int))) =
          data.countP (fun r => decide (monthPos fy r.date < (k : Int))) +
          data.countP (fun r => decide (monthPos fy r.date = (k : Int))) := by
        apply countP_split_mine
        · intro a _
          simp only [decide_eq_true_eq]
          omega
        · intro a _
          simp only [decide_eq_true_eq]
          omega
      have hle_eq : data.countP (fun r => decide (monthPos fy r.date < ((k + 1 : Nat) : Int))) =
          data.countP (fun r => decide (monthPos fy r.date ≤ (k : Int))) := by
        apply countP_congr_mine
        intro a _
        simp only [decide_eq_decide]
        omega
      by_cases hseg :
          (monthSliceHL data (gridMonth fy k).1 (gridMonth fy k).2).length = 0
      · have hnone := monthMeanOpt_none data (gridMonth fy k) hseg
        have hst := hmmvState_succ data fy k
        rw [hmmvStep_empty data _ _ hseg] at hst
        have hm : meansUpTo data fy (k + 1) = meansUpTo data fy k := by
          rw [meansUpTo_succ, hnone]
          simp
        refine ⟨?_, ?_, ?_, ?_, ?_⟩
        · rw [hst, hsplit, ← hlen, hseg]
          simpa using ih1
        · rw [hst, hm]
          exact ih2
        · rw [hst]
          exact ih3
        · rw [hst]
          exact ih4
        · rw [hst]
          intro hp
          obtain ⟨n, hn, h1, h2, h3⟩ := ih5 hp
          exact ⟨n, by omega, h1, h2, h3⟩
      · have hsome := monthMeanOpt_some data (gridMonth fy k) hseg
        have hst := hmmvState_succ data fy k
        have hm : meansUpTo data fy (k + 1) = meansUpTo data fy k ++
            [((monthSliceHL data (gridMonth fy k).1 (gridMonth fy k).2).map
                (fun p => p.2.1 - p.2.2)).sum /
              ((monthSliceHL data (gridMonth fy k).1 (gridMonth fy k).2).length : ℚ)] := by
          rw [meansUpTo_succ, hsome]
          rfl
        have hfoldm : (meansUpTo data fy (k + 1)).foldl max 0 =
            max ((meansUpTo data fy k).foldl max 0)
              (((monthSliceHL data (gridMonth fy k).1 (gridMonth fy k).2).map
                  (fun p => p.2.1 - p.2.2)).sum /
                ((monthSliceHL data (gridMonth fy k).1 (gridMonth fy k).2).length : ℚ)) := by
          rw [hm, List.foldl_append]
          rfl
        by_cases hupd : (hmmvState data fy k).2.1 <
            ((monthSliceHL data (gridMonth fy k).1 (gridMonth fy k).2).map
                (fun p => p.2.1 - p.2.2)).sum /
              ((monthSliceHL data (gridMonth fy k).1 (gridMonth fy k).2).length : ℚ)
        · rw [hmmvStep_update data _ _ hseg hupd] at hst
          refine ⟨?_, ?_, ?_, ?_, ?_⟩
          · rw [hst, hsplit, ← hlen]
            simp only
            omega
          · rw [hst, hfoldm, ← ih2, max_eq_right (le_of_lt hupd)]
          · rw [hst]
            exact le_of_lt (lt_of_le_of_lt ih3 hupd)
          · rw [hst]
            intro h0
            simp only at h0
            rw [h0] at hupd
            exact absurd hupd (not_lt.mpr ih3)
          · rw [hst]
            intro _
            refine ⟨k, by omega, ?_, ?_, ?_⟩
            · rw [hsome]
            · intro m hm' q hq
              have hqmem : q ∈ meansUpTo data fy k :=
                List.mem_filterMap.mpr ⟨gridMonth fy m,
                  List.mem_map_of_mem _ (List.mem_range.mpr hm'), hq⟩
              calc q ≤ (meansUpTo data fy k).foldl max 0 := mem_le_foldl_max hqmem 0
                _ = (hmmvState data fy k).2.1 := ih2.symm
                _ < _ := hupd
            · simp only
              have hcnt : List.countP
                  (fun r => decide (monthPos fy r.date ≤ (k : Int))) data =
                  (hmmvState data fy k).2.2 +
                  (monthSliceHL data (gridMonth fy k).1 (gridMonth fy k).2).length := by
                rw [← hle_eq, hsplit, ih1, hlen]
              rw [hcnt]
              omega
        · rw [hmmvStep_noupdate data _ _ hseg hupd] at hst
          refine ⟨?_, ?_, ?_, ?_, ?_⟩
          · rw [hst, hsplit, ← hlen]
            simpa using ih1
          · rw [hst, hfoldm, ← ih2, max_eq_left (le_of_not_lt hupd)]
          · rw [hst]
            exact ih3
          · rw [hst]
            exact ih4
          · rw [hst]
            intro hp
            obtain ⟨n, hn, h1, h2, h3⟩ := ih5 hp
            exact ⟨n, by omega, h1, h2, h3⟩

theorem takeWhile_eq_filter_downward (l : List Row) (P : Row → Bool)
    (hs : l.Pairwise (fun a b => a.date.key ≤ b.date.key))
    (hdc : ∀ a ∈ l, ∀ b ∈ l, a.date.key ≤ b.date.key → P b = true → P a = true) :
    l.takeWhile P = l.filter P := by
  induction l with
  | nil => rfl
  | cons a t ih =>
      rw [List.pairwise_cons] at hs
      by_cases hp : P a = true
      · rw [List.takeWhile_cons_of_pos hp, List.filter_cons_of_pos hp]
        exact congrArg _ (ih hs.2 (fun x hx y hy hxy hPy =>
          hdc x (List.mem_cons_of_mem a hx) y (List.mem_cons_of_mem a hy) hxy hPy))
      · rw [List.takeWhile_cons_of_neg hp, List.filter_cons_of_neg hp]
        symm
        rw [List.filter_eq_nil_iff]
        intro b hb hPb
        exact hp (hdc a (List.mem_cons_self a t) b (List.mem_cons_of_mem a hb)
          (hs.1 b hb) hPb)

theorem pairwise_le_getLastD (a : Row) (t : List Row)
    (hp : (a :: t).Pairwise (fun x y => x.date.key ≤ y.date.key)) :
    ∀ x ∈ a :: t, x.date.key ≤ ((t.getLastD a).date.key) := by
  induction t generalizing a with
  | nil =>
      intro x hx
      rcases List.mem_cons.mp hx with rfl | h
      · exact le_refl _
      · cases h
  | cons b t' ih =>
      rw [List.pairwise_cons] at hp
      intro x hx
      have hlast : ((b :: t').getLastD a) = t'.getLastD b := List.getLastD_cons a b t'
      rw [hlast]
      rcases List.mem_cons.mp hx with rfl | hxt
      · exact le_trans (hp.1 b (List.mem_cons_self b t'))
          (ih b hp.2 b (List.mem_cons_self b t'))
      · exact ih b hp.2 x hxt

set_option maxHeartbeats 1000000 in
theorem get_countP_last (data : Table) (fy : Int) (n : Nat)
    (hs : data.Pairwise (fun a b => a.date.key ≤ b.date.key))
    (hv : ∀ r ∈ data, r.date.Valid)
    (hex : ∃ r ∈ data, monthPos fy r.date = (n : Int)) :
    ∃ z, data.get?
        (data.countP (fun r => decide (monthPos fy r.date ≤ (n : Int))) - 1) =
        some z ∧ monthPos fy z.date = (n : Int) ∧ z ∈ data := by
  have hdc : ∀ a ∈ data, ∀ b ∈ data, a.date.key ≤ b.date.key →
      (fun r => decide (monthPos fy r.date ≤ (n : Int))) b = true →
      (fun r => decide (monthPos fy r.date ≤ (n : Int))) a = true := by
    intro a ha b hb hab hPb
    simp only [decide_eq_true_eq] at hPb ⊢
    exact le_trans (monthPos_mono (hv a ha) (hv b hb) fy hab) hPb
  have htf := takeWhile_eq_filter_downward data
    (fun r => decide (monthPos fy r.date ≤ (n : Int))) hs hdc
  obtain ⟨w, hw, hwn⟩ := hex
  have hPw : (fun r => decide (monthPos fy r.date ≤ (n : Int))) w = true := by
    simp only [decide_eq_true_eq]
    omega
  have hwf : w ∈ data.filter (fun r => decide (monthPos fy r.date ≤ (n : Int))) :=
    List.mem_filter.mpr ⟨hw, hPw⟩
  have hcpos : 0 < data.countP (fun r => decide (monthPos fy r.date ≤ (n : Int))) := by
    rw [List.countP_eq_length_filter]
    exact List.length_pos.mpr (List.ne_nil_of_mem hwf)
  have hlenq : (data.takeWhile
      (fun r => decide (monthPos fy r.date ≤ (n : Int)))).length =
      data.countP (fun r => decide (monthPos fy r.date ≤ (n : Int))) := by
    rw [htf, ← List.countP_eq_length_filter]
  have hlt : data.countP (fun r => decide (monthPos fy r.date ≤ (n : Int))) - 1 <
      (data.takeWhile (fun r => decide (monthPos fy r.date ≤ (n : Int)))).length := by
    omega
  have hz : data.get?
      (data.countP (fun r => decide (monthPos fy r.date ≤ (n : Int))) - 1) =
      (data.takeWhile (fun r => decide (monthPos fy r.date ≤ (n : Int)))).get?
      (data.countP (fun r => decide (monthPos fy r.date ≤ (n : Int))) - 1) := by
    have h1 := congrArg (fun l0 : List Row => l0.get?
        (data.countP (fun r => decide (monthPos fy r.date ≤ (n : Int))) - 1))
      (List.takeWhile_append_dropWhile
        (p := fun r => decide (monthPos fy r.date ≤ (n : Int))) (l := data)).symm
    exact h1.trans (List.get?_append hlt)
  obtain ⟨z, hzeq⟩ : ∃ z, (data.takeWhile
      (fun r => decide (monthPos fy r.date ≤ (n : Int)))).get?
      (data.countP (fun r => decide (monthPos fy r.date ≤ (n : Int))) - 1) =
      some z := by
    rw [List.get?_eq_get hlt]
    exact ⟨_, rfl⟩
  have hzmemf : z ∈ data.filter
      (fun r => decide (monthPos fy r.date ≤ (n : Int))) := by
    rw [← htf]
    exact List.get?_mem hzeq
  obtain ⟨hzmem, hPz'⟩ := List.mem_filter.mp hzmemf
  have hPz : monthPos fy z.date ≤ (n : Int) := by
    simpa only [decide_eq_true_eq] using hPz'
  have hwtw : w ∈ data.takeWhile
      (fun r => decide (monthPos fy r.date ≤ (n : Int))) := by
    rw [htf]
    exact hwf
  obtain ⟨⟨iw, hiw⟩, hwe⟩ := List.get_of_mem hwtw
  obtain ⟨hlt2, hzget⟩ := List.get?_eq_some.mp hzeq
  have hptw : (data.takeWhile
      (fun r => decide (monthPos fy r.date ≤ (n : Int)))).Pairwise
      (fun a b => a.date.key ≤ b.date.key) := by
    rw [htf]
    exact hs.filter _
  have hwz : w.date.key ≤ z.date.key := by
    rcases Nat.lt_or_ge iw
      (data.countP (fun r => decide (monthPos fy r.date ≤ (n : Int))) - 1) with h | h
    · have hpg := (List.pairwise_iff_get.mp hptw) ⟨iw, hiw⟩
        ⟨data.countP (fun r => decide (monthPos fy r.date ≤ (n : Int))) - 1, hlt2⟩ h
      rw [hwe, hzget] at hpg
      exact hpg
    · have hfe : (⟨iw, hiw⟩ : Fin (data.takeWhile
          (fun r => decide (monthPos fy r.date ≤ (n : Int)))).length) =
          ⟨data.countP (fun r => decide (monthPos fy r.date ≤ (n : Int))) - 1,
            hlt2⟩ := by
        apply Fin.ext
        simp only
        omega
      rw [← hwe, ← hzget, hfe]
  have hzn : monthPos fy z.date = (n : Int) := by
    have := monthPos_mono (hv w hw) (hv z hzmem) fy hwz
    omega
  exact ⟨z, by rw [hz]; exact hzeq, hzn, hzmem⟩

theorem getLastD_mem_cons_mine (r0 : Row) (tl : List Row) :
    tl.getLastD r0 ∈ r0 :: tl := by
  induction tl generalizing r0 with
  | nil => exact List.mem_cons_self r0 []
  | cons b t ih =>
      rw [List.getLastD_cons]
      rcases List.mem_cons.mp (ih b) with h | h
      · rw [h]
        exact List.mem_cons_of_mem r0 (List.mem_cons_self b t)
      · exact List.mem_cons_of_mem r0 (List.mem_cons_of_mem b h)

theorem rows_monthPos_bounds (r0 : Row) (tl : List Row)
    (hs : (r0 :: tl).Pairwise (fun a b => a.date.key ≤ b.date.key))
    (hv : ∀ r ∈ r0 :: tl, r.date.Valid) :
    (∀ r ∈ r0 :: tl, 0 ≤ monthPos r0.date.year r.date) ∧
    (∀ r ∈ r0 :: tl, monthPos r0.date.year r.date <
      ((12 * (((tl.getLastD r0).date.year + 1 - r0.date.year).toNat) : Nat) : Int)) := by
  have hfirst : ∀ r ∈ r0 :: tl, r0.date.key ≤ r.date.key := by
    intro r hr
    rcases List.mem_cons.mp hr with rfl | hrt
    · exact le_refl _
    · exact (List.pairwise_cons.mp hs).1 r hrt
  have hlast := pairwise_le_getLastD r0 tl hs
  have hlmem : tl.getLastD r0 ∈ r0 :: tl := getLastD_mem_cons_mine r0 tl
  have hlow : ∀ r ∈ r0 :: tl, 0 ≤ monthPos r0.date.year r.date := by
    intro r hr
    have h1 := monthPos_mono (hv r0 (List.mem_cons_self r0 tl)) (hv r hr)
      r0.date.year (hfirst r hr)
    have hb := date_valid_bounds (hv r0 (List.mem_cons_self r0 tl))
    unfold monthPos at h1 ⊢
    omega
  refine ⟨hlow, ?_⟩
  intro r hr
  have h2 := monthPos_mono (hv r hr) (hv _ hlmem) r0.date.year (hlast r hr)
  have hbl := date_valid_bounds (hv _ hlmem)
  have hlr := hlow _ hlmem
  unfold monthPos at h2 hlr ⊢
  omega

/-- C9 amended: `highest_monthly_mean_variation` computes a mean only for
months with at least one observed day (`monthMeanOpt` is `none` for the
others, and the scan divides only under its `dias ≠ 0` guard, so a division
by zero never happens); when some month attains a strictly positive mean,
it returns the first calendar month (as its first day) attaining the
largest mean, with that mean; when every monthly mean is `≤ 0` (data with
`high < low` throughout), the running maximum keeps its initial value `0`
and the calendar month of the table's first row is returned with mean `0`
— not the month with the largest (negative) mean. -/
theorem hmmv_characterization (r0 : Row) (tl : List Row)
    (hst : (r0 :: tl).Pairwise (fun a b => a.date.key < b.date.key))
    (hv : ∀ r ∈ r0 :: tl, r.date.Valid) :
    (∀ q ∈ monthMeans (r0 :: tl) r0.date.year ((tl.getLastD r0).date.year),
      q ≤ specMaxMonthlyMean (r0 :: tl) r0.date.year ((tl.getLastD r0).date.year)) ∧
    (0 < specMaxMonthlyMean (r0 :: tl) r0.date.year ((tl.getLastD r0).date.year) →
      ∃ n, monthMeanOpt (r0 :: tl) (gridMonth r0.date.year n) =
          some (specMaxMonthlyMean (r0 :: tl) r0.date.year
            ((tl.getLastD r0).date.year)) ∧
        (∀ m < n, ∀ q, monthMeanOpt (r0 :: tl) (gridMonth r0.date.year m) = some q →
          q < specMaxMonthlyMean (r0 :: tl) r0.date.year
            ((tl.getLastD r0).date.year)) ∧
        highest_monthly_mean_variation_one (r0 :: tl) =
          .ok (⟨(gridMonth r0.date.year n).1, (gridMonth r0.date.year n).2, 1⟩,
            specMaxMonthlyMean (r0 :: tl) r0.date.year ((tl.getLastD r0).date.year))) ∧
    (specMaxMonthlyMean (r0 :: tl) r0.date.year ((tl.getLastD r0).date.year) ≤ 0 →
      specMaxMonthlyMean (r0 :: tl) r0.date.year ((tl.getLastD r0).date.year) = 0 ∧
      highest_monthly_mean_variation_one (r0 :: tl) =
        .ok (⟨r0.date.year, r0.date.month, 1⟩, 0)) := by
  have hle : (r0 :: tl).Pairwise (fun a b => a.date.key ≤ b.date.key) :=
    hst.imp (fun h => le_of_lt h)
  obtain ⟨hlow, hhigh⟩ := rows_monthPos_bounds r0 tl hle hv
  obtain ⟨inv1, inv2, inv3, inv4, inv5⟩ := hmmv_invariant (r0 :: tl) r0.date.year
    hle hv hlow (12 * (((tl.getLastD r0).date.year + 1 - r0.date.year).toNat))
  have hMdef : specMaxMonthlyMean (r0 :: tl) r0.date.year
      ((tl.getLastD r0).date.year) =
      (meansUpTo (r0 :: tl) r0.date.year
        (12 * (((tl.getLastD r0).date.year + 1 - r0.date.year).toNat))).foldl
        max 0 := rfl
  have hMfold : (hmmvState (r0 :: tl) r0.date.year
      (12 * (((tl.getLastD r0).date.year + 1 - r0.date.year).toNat))).2.1 =
      specMaxMonthlyMean (r0 :: tl) r0.date.year ((tl.getLastD r0).date.year) :=
    inv2.trans hMdef.symm
  have hone : highest_monthly_mean_variation_one (r0 :: tl) =
      match (r0 :: tl).get? ((hmmvState (r0 :: tl) r0.date.year
        (12 * (((tl.getLastD r0).date.year + 1 - r0.date.year).toNat))).1) with
      | some r => .ok (⟨r.date.year, r.date.month, 1⟩,
          (hmmvState (r0 :: tl) r0.date.year
            (12 * (((tl.getLastD r0).date.year + 1 - r0.date.year).toNat))).2.1)
      | Option.none => .error .indexError := rfl
  refine ⟨?_, ?_, ?_⟩
  · intro q hq
    rw [hMdef]
    exact mem_le_foldl_max hq 0
  · intro hpos
    rw [← hMfold] at hpos
    obtain ⟨n, hnN, hmean, hearlier, hidx⟩ := inv5 hpos
    have hlen0 : (monthSliceHL (r0 :: tl) (gridMonth r0.date.year n).1
        (gridMonth r0.date.year n).2).length ≠ 0 := by
      intro h0
      rw [monthMeanOpt_none (r0 :: tl) _ h0] at hmean
      cases hmean
    rw [monthSliceHL_length (r0 :: tl) hle hv r0.date.year n] at hlen0
    obtain ⟨w, hw, hwP⟩ := List.countP_pos.mp (Nat.pos_of_ne_zero hlen0)
    have hwn : monthPos r0.date.year w.date = (n : Int) := by
      simpa only [decide_eq_true_eq] using hwP
    obtain ⟨z, hzget, hzn, hzmem⟩ := get_countP_last (r0 :: tl) r0.date.year n
      hle hv ⟨w, hw, hwn⟩
    have hcpos : 0 < (r0 :: tl).countP
        (fun r => decide (monthPos r0.date.year r.date ≤ (n : Int))) :=
      List.countP_pos.mpr ⟨w, hw, by simp only [decide_eq_true_eq]; omega⟩
    have hst1 : (hmmvState (r0 :: tl) r0.date.year
        (12 * (((tl.getLastD r0).date.year + 1 - r0.date.year).toNat))).1 =
        (r0 :: tl).countP
          (fun r => decide (monthPos r0.date.year r.date ≤ (n : Int))) - 1 := by
      omega
    obtain ⟨hy, hm⟩ := (monthPos_eq_iff (hv z hzmem) r0.date.year n).mp hzn
    refine ⟨n, by rw [← hMfold]; exact hmean, ?_, ?_⟩
    · intro m hmn q hq
      rw [← hMfold]
      exact hearlier m hmn q hq
    · rw [hone, hst1, hzget]
      simp only
      rw [hy, hm, hMfold]
  · intro hneg
    have h0 : (hmmvState (r0 :: tl) r0.date.year
        (12 * (((tl.getLastD r0).date.year + 1 - r0.date.year).toNat))).2.1 = 0 :=
      le_antisymm (hMfold ▸ hneg) inv3
    refine ⟨by rw [← hMfold, h0], ?_⟩
    rw [hone, inv4 h0]
    simp only [List.get?_cons_zero, h0]

/-- C9 counterexample: on two months of anomalous data whose means are `-1`
(January) and `-1/2` (February), the strictly largest monthly mean is
February's `-1/2`, yet `highest_monthly_mean_variation()` returns January
(the month of row 0) with mean `0.0` — the claim's "returns the first
calendar month achieving the strictly largest mean, with that mean" fails
because the running maximum starts at `0`. -/
theorem hmmv_anomalous_returns_first_row_month :
    highest_monthly_mean_variation [c9table] = .ok [(⟨2020, 1, 1⟩, 0)] ∧
    monthMeans c9table 2020 2020 = [-1, -(1/2)] ∧
    (∀ q ∈ monthMeans c9table 2020 2020, q ≤ -(1/2)) ∧
    ((⟨2020, 1, 1⟩ : Date), (0 : ℚ)) ≠ ((⟨2020, 2, 1⟩ : Date), (-(1/2) : ℚ)) := by
  have h2 : monthMeans c9table 2020 2020 = [-1, -(1/2)] := by
    norm_num [monthMeans, monthGrid, gridMonth, monthMeanOpt, monthSliceHL, locSlice,
      hlCol, c9table, sampleRow, Date.key, daysInMonth, List.range_succ,
      List.filterMap_cons]
  refine ⟨?_, h2, ?_, by intro h; injection h with h1 h2; cases h1⟩
  · norm_num [highest_monthly_mean_variation, mapME, highest_monthly_mean_variation_one,
      monthGrid, gridMonth, hmmvStep, monthSliceHL, locSlice, hlCol, c9table, sampleRow,
      Date.key, daysInMonth, List.range_succ, except_bind_ok]
  · rw [h2]
    intro q hq
    rcases List.mem_cons.mp hq with rfl | hq'
    · norm_num
    · rcases List.mem_cons.mp hq' with rfl | hq''
      · norm_num
      · cases hq''

/-- Witness for `hmmv_characterization` at a three-row table spanning
January and February 2020 (January's mean variation is `4`, February's is
`1`). -/
theorem hmmv_characterization_witness :
    (∀ q ∈ monthMeans wtable 2020 2020, q ≤ specMaxMonthlyMean wtable 2020 2020) ∧
    (0 < specMaxMonthlyMean wtable 2020 2020 →
      ∃ n, monthMeanOpt wtable (gridMonth 2020 n) =
          some (specMaxMonthlyMean wtable 2020 2020) ∧
        (∀ m < n, ∀ q, monthMeanOpt wtable (gridMonth 2020 m) = some q →
          q < specMaxMonthlyMean wtable 2020 2020) ∧
        highest_monthly_mean_variation_one wtable =
          .ok (⟨(gridMonth 2020 n).1, (gridMonth 2020 n).2, 1⟩,
            specMaxMonthlyMean wtable 2020 2020)) ∧
    (specMaxMonthlyMean wtable 2020 2020 ≤ 0 →
      specMaxMonthlyMean wtable 2020 2020 = 0 ∧
      highest_monthly_mean_variation_one wtable = .ok (⟨2020, 1, 1⟩, 0)) :=
  hmmv_characterization (sampleRow ⟨2020, 1, 6⟩ 4 2 3 0)
    [sampleRow ⟨2020, 1, 7⟩ 9 3 4 1, sampleRow ⟨2020, 2, 4⟩ 6 5 5 0]
    (by decide) (by decide)

end ClaimC9

end Teii
